import Mathlib

/-!
Verification of the lazycut preview-pipeline core, shallowly embedded from
the Go sources: the quantizing LRU frame cache, the decode-pipe framing
parser, the render scheduler's staleness fence, the trim state, seek
clamping, the playback loop's termination behaviour and the audio sidecar.

Time positions (`time.Duration` in Go) are modelled as `Int` nanoseconds;
the float64 frame rate is modelled as `ℚ` (exact for every float64 value),
with the Go float-to-int64 conversion of a positive value modelled as the
floor.
-/

namespace LazyCut

/-- Quality presets, from the current `QualityPreset` in chafa.go
(src/unnamed/part_002): three values LOW, MEDIUM, HIGH with underlying
ints 0, 1, 2.  (src/video/chafa.go also holds an older two-preset revision
of the same file; the UI references `QualityMedium`, so the three-preset
revision is the one the program compiles against.) -/
inductive QualityPreset
  | low
  | medium
  | high
deriving DecidableEq, Repr, Fintype

/-- The underlying Go int of each preset constant (`iota`: 0, 1, 2). -/
def QualityPreset.toInt : QualityPreset → Int
  | .low => 0
  | .medium => 1
  | .high => 2

/-- `Next` from chafa.go: `(q + 1) % 3` on the underlying int, written out
on the three constants. -/
def QualityPreset.next : QualityPreset → QualityPreset
  | .low => .medium
  | .medium => .high
  | .high => .low

/-- `CacheKey` from the frame cache (src/unnamed/part_000): quantized
position plus width, height and quality; equality is exact on all four
fields. -/
structure CacheKey where
  position : Int
  width : Int
  height : Int
  quality : QualityPreset
deriving DecidableEq, Repr

/-- `time.Second` in nanoseconds. -/
def nsPerSecond : Int := 1000000000

/-- `time.Duration(float64(time.Second) / c.fps)` for `fps > 0`: the
division is positive, so the Go truncation toward zero is the floor. -/
def frameDurationOf (fps : ℚ) : Int := ⌊(nsPerSecond : ℚ) / fps⌋

/-- `FrameCache.quantizePosition` from src/unnamed/part_000: if `fps ≤ 0`
return the position unchanged; otherwise compute the frame duration and
return `(position / frameDuration) * frameDuration`, where `/` is Go's
int64 division (truncation toward zero, `Int.tdiv`). -/
def quantizePosition (fps : ℚ) (position : Int) : Int :=
  if fps ≤ 0 then position
  else
    let frameDuration := frameDurationOf fps
    let frameIndex := Int.tdiv position frameDuration
    frameIndex * frameDuration

/-- The `FrameCache` state (src/unnamed/part_000): the Go map plus
`container/list` recency list collapse to one association list,
most-recently-used first. -/
structure FrameCache where
  capacity : Nat
  order : List (CacheKey × String)
  fps : ℚ
deriving DecidableEq, Repr

/-- `NewFrameCache`: a non-positive capacity falls back to
`DefaultCacheCapacity = 100`. -/
def FrameCache.new (capacity : Int) (fps : ℚ) : FrameCache :=
  { capacity := if capacity ≤ 0 then 100 else capacity.toNat
    order := []
    fps := fps }

/-- The cache key built by both `Get` and `Put`. -/
def FrameCache.keyFor (c : FrameCache) (position width height : Int)
    (quality : QualityPreset) : CacheKey :=
  { position := quantizePosition c.fps position
    width := width
    height := height
    quality := quality }

/-- `FrameCache.Get`: quantize, look up the exact key; on a hit move the
entry to the front (most recently used) and return its frame. -/
def FrameCache.get (c : FrameCache) (position width height : Int)
    (quality : QualityPreset) : Option String × FrameCache :=
  let key := c.keyFor position width height quality
  match c.order.find? (fun e => decide (e.1 = key)) with
  | some e =>
      (some e.2, { c with order := (key, e.2) :: c.order.eraseP (fun e => decide (e.1 = key)) })
  | none => (none, c)

/-- `FrameCache.Put`: quantize; an existing key is overwritten and moved
to the front; a new key is pushed to the front, first removing the back
(least recently used) element when the cache is full. -/
def FrameCache.put (c : FrameCache) (position width height : Int)
    (quality : QualityPreset) (frame : String) : FrameCache :=
  let key := c.keyFor position width height quality
  if c.order.any (fun e => decide (e.1 = key)) then
    { c with order := (key, frame) :: c.order.eraseP (fun e => decide (e.1 = key)) }
  else
    let trimmed := if c.order.length ≥ c.capacity then c.order.dropLast else c.order
    { c with order := (key, frame) :: trimmed }

/-- `FrameCache.Clear`. -/
def FrameCache.clear (c : FrameCache) : FrameCache :=
  { c with order := [] }

/-- `FrameCache.Len`. -/
def FrameCache.len (c : FrameCache) : Nat := c.order.length

/-- `FrameCache.SetFPS`: overwrites only the fps field. -/
def FrameCache.setFPS (c : FrameCache) (fps : ℚ) : FrameCache :=
  { c with fps := fps }

/-- One externally observable cache operation. -/
inductive CacheOp
  | put (position width height : Int) (quality : QualityPreset) (frame : String)
  | get (position width height : Int) (quality : QualityPreset)

/-- State change of one cache operation. -/
def FrameCache.applyOp (c : FrameCache) : CacheOp → FrameCache
  | .put p w h q f => c.put p w h q f
  | .get p w h q => (c.get p w h q).2

/-- State after a sequence of cache operations. -/
def FrameCache.applyOps (c : FrameCache) (ops : List CacheOp) : FrameCache :=
  ops.foldl FrameCache.applyOp c

/-- `TrimState` from src/video/player.go: optional in and out points. -/
structure TrimState where
  inPoint : Option Int
  outPoint : Option Int
deriving DecidableEq, Repr

/-- `TrimState.SetIn`: clear the out point when the new in point lies
strictly past it, then set the in point. -/
def TrimState.setIn (t : TrimState) (pos : Int) : TrimState :=
  let newOut : Option Int :=
    match t.outPoint with
    | some o => if o < pos then none else some o
    | none => none
  { inPoint := some pos, outPoint := newOut }

/-- `TrimState.SetOut`: clear the in point when the new out point lies
strictly before it, then set the out point. -/
def TrimState.setOut (t : TrimState) (pos : Int) : TrimState :=
  let newIn : Option Int :=
    match t.inPoint with
    | some i => if pos < i then none else some i
    | none => none
  { inPoint := newIn, outPoint := some pos }

/-- `TrimState.Clear`. -/
def TrimState.clear (_ : TrimState) : TrimState :=
  { inPoint := none, outPoint := none }

/-- One trim operation. -/
inductive TrimOp
  | setIn (pos : Int)
  | setOut (pos : Int)
  | clear

/-- State change of one trim operation. -/
def TrimState.applyOp (t : TrimState) : TrimOp → TrimState
  | .setIn pos => t.setIn pos
  | .setOut pos => t.setOut pos
  | .clear => t.clear

/-- State after a sequence of trim operations. -/
def TrimState.applyOps (t : TrimState) (ops : List TrimOp) : TrimState :=
  ops.foldl TrimState.applyOp t

/-- The trim ordering invariant: whenever both points are set,
`inPoint ≤ outPoint`. -/
def TrimState.ordered (t : TrimState) : Prop :=
  ∀ i o, t.inPoint = some i → t.outPoint = some o → i ≤ o

/-- The session state `Player.Seek` mutates (src/video/player.go):
position and duration in nanoseconds. -/
structure PlayerState where
  position : Int
  duration : Int
deriving DecidableEq, Repr

/-- `Player.Seek`: clamp below 0 to 0, then above the duration to the
duration, and store the result as the position. -/
def PlayerState.seek (p : PlayerState) (target : Int) : PlayerState :=
  let pos1 := if target < 0 then 0 else target
  let pos2 := if p.duration < pos1 then p.duration else pos1
  { p with position := pos2 }

/-- The playback-loop state `playbackLoop` advances
(src/video/player.go): position, duration and the per-frame interval, all
nanoseconds, plus the playing flag. -/
structure PlayState where
  position : Int
  duration : Int
  frameInterval : Int
  playing : Bool
deriving DecidableEq, Repr

/-- One successful iteration of `playbackLoop`'s frame-commit section: if
stopped, nothing happens; otherwise advance the position by one frame
interval and, when it reaches or exceeds the duration, clamp it to the
duration and stop.  (Stream management, rendering and the cache write of
the loop body do not touch position or playing and are elided; the claim's
hypothesis that every iteration commits a frame makes this the loop's
exact position/playing behaviour.) -/
def playbackStep (s : PlayState) : PlayState :=
  if s.playing then
    let pos := s.position + s.frameInterval
    if s.duration ≤ pos then
      { s with position := s.duration, playing := false }
    else
      { s with position := pos }
  else s

/-- Errors `FrameStream.NextFrame` (src/video/stream.go) can surface: the
two `io.ReadFull` failure shapes, the magic-byte check and the size
check. -/
inductive StreamError
  | eofErr
  | unexpectedEOFErr
  | invalidHeader
  | invalidSize
deriving DecidableEq, Repr

/-- `io.ReadFull` on a byte stream modelled as the list of bytes it will
still deliver: reading `n` bytes succeeds iff at least `n` remain;
reading nothing at all is `io.EOF`, a partial read is
`io.ErrUnexpectedEOF`; no partial data is ever returned. -/
def readFull (s : List Nat) (n : Nat) : Except StreamError (List Nat × List Nat) :=
  if s.length < n then
    .error (if s.isEmpty then .eofErr else .unexpectedEOFErr)
  else
    .ok (s.take n, s.drop n)

/-- `binary.LittleEndian.Uint32` of four bytes. -/
def leUint32 (b0 b1 b2 b3 : Nat) : Nat :=
  b0 + 256 * b1 + 65536 * b2 + 16777216 * b3

/-- `FrameStream.NextFrame` (src/video/stream.go): read a 14-byte header;
require the magic bytes `B`,`M` (66, 77); decode the little-endian 32-bit
size at offset 2 and require it to be at least 14; then read the remaining
`size − 14` bytes and return the whole frame (header bytes first) together
with the unconsumed remainder of the stream. -/
def nextFrame (s : List Nat) : Except StreamError (List Nat × List Nat) :=
  match readFull s 14 with
  | .error e => .error e
  | .ok (header, rest) =>
    if header.getD 0 0 = 66 ∧ header.getD 1 0 = 77 then
      let frameSize := leUint32 (header.getD 2 0) (header.getD 3 0)
        (header.getD 4 0) (header.getD 5 0)
      if frameSize < 14 then .error .invalidSize
      else
        match readFull rest (frameSize - 14) with
        | .error e => .error e
        | .ok (payload, rest2) => .ok (header ++ payload, rest2)
    else .error .invalidHeader

/-- `RenderWorker.NextSeq` (src/video/audio.go, RenderWorker section):
atomically increment `latestSeq` and return the new value. -/
def nextSeq (latest : Nat) : Nat × Nat := (latest + 1, latest + 1)

/-- `RenderWorker.IsStale`: a sequence number is stale iff it is strictly
below the current latest issued sequence number. -/
def isStale (seqNum latest : Nat) : Bool := decide (seqNum < latest)

/-- What one `Submit` goroutine observes of the shared scheduler state: the
value of `latestSeq` at its pre-render staleness check and at its
post-render staleness check, whether the semaphore slot was acquired
before the context fired, and whether the context was cancelled/timed out
at the final select. -/
structure SubmitObservation where
  latestAtPre : Nat
  latestAtPost : Nat
  acquired : Bool
  cancelled : Bool
deriving DecidableEq, Repr

/-- Whether `Submit`'s goroutine invokes the result callback, as a
function of the request's sequence number and what the goroutine observed:
it delivers iff the slot was acquired, the request was not stale at either
check, and the context had not fired. -/
def submitDelivers (seqNum : Nat) (obs : SubmitObservation) : Bool :=
  obs.acquired && !(isStale seqNum obs.latestAtPre) &&
    !(isStale seqNum obs.latestAtPost) && !obs.cancelled

/-- `AudioPlayer` state (src/video/audio.go): the mute flag and whether an
ffplay process is currently held and alive (`cmd != nil` with a live
process; every path that kills the process also clears `cmd`). -/
structure AudioState where
  muted : Bool
  running : Bool
deriving DecidableEq, Repr

/-- `NewAudioPlayer`: not muted, no process. -/
def AudioState.init : AudioState := { muted := false, running := false }

/-- One serialized `AudioPlayer` operation; `start`'s flag records whether
the spawned process started successfully (`cmd.Start`'s ignored error). -/
inductive AudioOp
  | start (spawnOk : Bool)
  | stop
  | toggleMute

/-- State change of one audio operation: `Start` is a no-op while muted
and otherwise replaces any running process; `Stop` kills it; `ToggleMute`
flips the flag and kills the process when muting. -/
def AudioState.applyOp (a : AudioState) : AudioOp → AudioState
  | .start ok => if a.muted then a else { a with running := ok }
  | .stop => { a with running := false }
  | .toggleMute =>
      let m := !a.muted
      if m then { muted := m, running := false } else { a with muted := m }

/-- State after a sequence of audio operations. -/
def AudioState.applyOps (a : AudioState) (ops : List AudioOp) : AudioState :=
  ops.foldl AudioState.applyOp a

/-- `AudioPlayer.IsRunning`. -/
def AudioState.isRunning (a : AudioState) : Bool := a.running

/-- `AudioPlayer.IsMuted`. -/
def AudioState.isMuted (a : AudioState) : Bool := a.muted

/-! ### Helper lemmas -/

theorem TrimState.ordered_applyOp (t : TrimState) (op : TrimOp) :
    (t.applyOp op).ordered := by
  cases op with
  | setIn pos =>
      intro i o hi ho
      simp only [TrimState.applyOp, TrimState.setIn] at hi ho
      cases hi
      cases hout : t.outPoint with
      | none => simp [hout] at ho
      | some o0 =>
          simp only [hout] at ho
          by_cases hlt : o0 < pos
          · simp [hlt] at ho
          · simp only [if_neg hlt] at ho
            cases ho
            omega
  | setOut pos =>
      intro i o hi ho
      simp only [TrimState.applyOp, TrimState.setOut] at hi ho
      cases ho
      cases hin : t.inPoint with
      | none => simp [hin] at hi
      | some i0 =>
          simp only [hin] at hi
          by_cases hlt : pos < i0
          · simp [hlt] at hi
          · simp only [if_neg hlt] at hi
            cases hi
            omega
  | clear =>
      intro i o hi ho
      simp [TrimState.applyOp, TrimState.clear] at hi

theorem TrimState.ordered_applyOps (ops : List TrimOp) (t : TrimState)
    (h : t.ordered) : (t.applyOps ops).ordered := by
  induction ops generalizing t with
  | nil => exact h
  | cons op rest ih =>
      exact ih (t.applyOp op) (TrimState.ordered_applyOp t op)

theorem AudioState.inv_applyOp (a : AudioState) (op : AudioOp)
    (h : a.muted = true → a.running = false) :
    (a.applyOp op).muted = true → (a.applyOp op).running = false := by
  cases op with
  | start ok =>
      by_cases hm : a.muted = true
      · simp [AudioState.applyOp, hm, h hm]
      · simp only [Bool.not_eq_true] at hm
        simp [AudioState.applyOp, hm]
  | stop => simp [AudioState.applyOp]
  | toggleMute =>
      cases hm : a.muted <;> simp [AudioState.applyOp, hm]

theorem AudioState.inv_applyOps (ops : List AudioOp) (a : AudioState)
    (h : a.muted = true → a.running = false) :
    (a.applyOps ops).muted = true → (a.applyOps ops).running = false := by
  induction ops generalizing a with
  | nil => exact h
  | cons op rest ih =>
      exact ih (a.applyOp op) (AudioState.inv_applyOp a op h)

/-! ### Claim theorems -/

/-- C5: trim ordering invariant — after every `SetIn`/`SetOut`/`Clear`
call (hence after each call of any non-empty sequence) the in point is at
most the out point whenever both are set; `SetOut` with a position
strictly before an existing in point clears the in point, and `SetIn`
with a position strictly after an existing out point clears the out
point. -/
theorem trim_ordering_invariant :
    (∀ (t : TrimState) (ops : List TrimOp), ops ≠ [] →
      (t.applyOps ops).ordered) ∧
    (∀ (t : TrimState) (pos i : Int), t.inPoint = some i → pos < i →
      (t.setOut pos).inPoint = none ∧ (t.setOut pos).outPoint = some pos) ∧
    (∀ (t : TrimState) (pos o : Int), t.outPoint = some o → o < pos →
      (t.setIn pos).outPoint = none ∧ (t.setIn pos).inPoint = some pos) := by
  refine ⟨?_, ?_, ?_⟩
  · intro t ops hne
    cases ops with
    | nil => exact absurd rfl hne
    | cons op rest =>
        exact TrimState.ordered_applyOps rest (t.applyOp op)
          (TrimState.ordered_applyOp t op)
  · intro t pos i hi hlt
    simp [TrimState.setOut, hi, hlt]
  · intro t pos o ho hlt
    simp [TrimState.setIn, ho, hlt]

/-- Witness for C5 at a concrete input: marking in at 5 then out at 3
leaves an ordered trim state. -/
theorem trim_ordering_invariant_witness :
    ((TrimState.mk none none).applyOps [TrimOp.setIn 5, TrimOp.setOut 3]).ordered :=
  trim_ordering_invariant.1 (TrimState.mk none none)
    [TrimOp.setIn 5, TrimOp.setOut 3] (by simp)

/-- C7: `Seek` clamps the target to `[0, duration]` — for duration
`D ≥ 0` the new position is `min (max target 0) D`; seeking to −5 s gives
position 0 and seeking to `D` + 100 s gives position `D`; the duration is
untouched. -/
theorem seek_clamps_to_range (p : PlayerState) (target : Int)
    (hdur : 0 ≤ p.duration) :
    (p.seek target).position = min (max target 0) p.duration ∧
    (p.seek target).duration = p.duration ∧
    (p.seek (-5 * nsPerSecond)).position = 0 ∧
    (p.seek (p.duration + 100 * nsPerSecond)).position = p.duration := by
  refine ⟨?_, rfl, ?_, ?_⟩ <;>
    simp only [PlayerState.seek, nsPerSecond] <;> split_ifs <;> omega

/-- Witness for C7 at a concrete session of duration 10 s and target
25 s. -/
theorem seek_clamps_to_range_witness :
    ((PlayerState.mk 0 10000000000).seek 25000000000).position =
      min (max 25000000000 0) 10000000000 :=
  (seek_clamps_to_range (PlayerState.mk 0 10000000000) 25000000000
    (by norm_num)).1

/-- C8: there are exactly three quality presets and `Next` cycles
LOW → MEDIUM → HIGH → LOW, matching `(q + 1) % 3` on the underlying int,
so three advances return to the start. -/
theorem quality_preset_cycle :
    Fintype.card QualityPreset = 3 ∧
    QualityPreset.low.next = QualityPreset.medium ∧
    QualityPreset.medium.next = QualityPreset.high ∧
    QualityPreset.high.next = QualityPreset.low ∧
    (∀ q : QualityPreset, q.next.toInt = (q.toInt + 1) % 3) ∧
    (∀ q : QualityPreset, q.next.next.next = q) := by
  refine ⟨by decide, rfl, rfl, rfl, ?_, ?_⟩ <;> intro q <;> cases q <;> rfl

/-- C9: `SetFPS` rewrites only the stored frame rate — the entries, their
stored keys, the recency order and the count are untouched, and only the
keys built for subsequent `Get`/`Put` calls use the new quantization
granularity. -/
theorem setFPS_leaves_entries_unchanged :
    ∀ (c : FrameCache) (fps : ℚ),
      (c.setFPS fps).order = c.order ∧
      (c.setFPS fps).capacity = c.capacity ∧
      (c.setFPS fps).len = c.len ∧
      (c.setFPS fps).fps = fps ∧
      (∀ (position width height : Int) (q : QualityPreset),
        (c.setFPS fps).keyFor position width height q =
          CacheKey.mk (quantizePosition fps position) width height q) :=
  fun _ _ => ⟨rfl, rfl, rfl, rfl, fun _ _ _ _ => rfl⟩

/-- C10: audio mute invariant — starting from a fresh player, after any
sequence of operations a muted player has no running process; `Start` is
a no-op while muted; `ToggleMute` leaves no process running whenever the
resulting state is muted. -/
theorem audio_mute_invariant :
    (∀ ops : List AudioOp, (AudioState.init.applyOps ops).isMuted = true →
      (AudioState.init.applyOps ops).isRunning = false) ∧
    (∀ (a : AudioState) (ok : Bool), a.muted = true →
      a.applyOp (AudioOp.start ok) = a) ∧
    (∀ a : AudioState, (a.applyOp AudioOp.toggleMute).muted = true →
      (a.applyOp AudioOp.toggleMute).running = false) := by
  refine ⟨?_, ?_, ?_⟩
  · intro ops
    exact AudioState.inv_applyOps ops AudioState.init (by intro h; rfl)
  · intro a ok hm
    simp [AudioState.applyOp, hm]
  · intro a
    cases hm : a.muted <;> simp [AudioState.applyOp, hm]

/-- Witness for C10: mute then attempt to start — the player is muted and
nothing is running. -/
theorem audio_mute_invariant_witness :
    (AudioState.init.applyOps [AudioOp.toggleMute, AudioOp.start true]).isRunning = false :=
  audio_mute_invariant.1 [AudioOp.toggleMute, AudioOp.start true] (by decide)

/-- C1: staleness fencing — `NextSeq` issues strictly increasing numbers;
a number is stale exactly when a strictly later one has since been
issued; the callback fires only when the request was still the latest at
both the pre- and post-render checks, the slot was acquired and the
context had not fired; hence a slow request 1 whose post-render check
happens after request 2 was issued never delivers, while a fast request 2
with no later submission does deliver. -/
theorem render_staleness_fencing :
    (∀ latest : Nat, (nextSeq latest).2 = latest + 1 ∧ latest < (nextSeq latest).1) ∧
    (∀ s m : Nat, isStale s (s + m) = true ↔ 0 < m) ∧
    (∀ (seqNum : Nat) (obs : SubmitObservation),
      submitDelivers seqNum obs = true ↔
        obs.acquired = true ∧ obs.latestAtPre ≤ seqNum ∧
        obs.latestAtPost ≤ seqNum ∧ obs.cancelled = false) ∧
    (∀ obs : SubmitObservation, 2 ≤ obs.latestAtPost →
      submitDelivers 1 obs = false) ∧
    submitDelivers 2 (SubmitObservation.mk 2 2 true false) = true := by
  refine ⟨fun latest => ⟨rfl, Nat.lt_succ_self latest⟩, ?_, ?_, ?_, rfl⟩
  · intro s m
    simp [isStale]
  · intro seqNum obs
    obtain ⟨pre, post, acq, canc⟩ := obs
    cases acq <;> cases canc <;> simp [submitDelivers, isStale]
  · intro obs h2
    simp only [submitDelivers, isStale]
    have h1 : (1 : Nat) < obs.latestAtPost := by omega
    simp [h1]

/-- Witness for C1: a concrete observation in which request 1's
post-render check saw that sequence 2 had been issued — the callback is
suppressed. -/
theorem render_staleness_fencing_witness :
    submitDelivers 1 (SubmitObservation.mk 1 2 true false) = false :=
  render_staleness_fencing.2.2.2.1 (SubmitObservation.mk 1 2 true false)
    (by norm_num)

/-- `playbackStep` never changes the session's duration or frame
interval. -/
theorem playbackStep_const (s : PlayState) :
    (playbackStep s).duration = s.duration ∧
    (playbackStep s).frameInterval = s.frameInterval := by
  unfold playbackStep
  by_cases hp : s.playing = true <;>
    by_cases hd : s.duration ≤ s.position + s.frameInterval <;>
      simp [hp, hd]

/-- Termination of the playback loop, by strong induction on the
remaining timeline measured in nanoseconds. -/
theorem playback_reaches_end (k : Nat) :
    ∀ s : PlayState, (s.duration - s.position).toNat ≤ k →
      s.playing = true → 0 < s.frameInterval →
      ∃ n : Nat, (playbackStep^[n] s).playing = false ∧
        (playbackStep^[n] s).position = s.duration := by
  induction k with
  | zero =>
      intro s hk hp hF
      refine ⟨1, ?_⟩
      have hdp : s.duration ≤ s.position := by omega
      have hle : s.duration ≤ s.position + s.frameInterval := by omega
      simp [playbackStep, hp, hle]
  | succ k ih =>
      intro s hk hp hF
      by_cases hend : s.duration ≤ s.position + s.frameInterval
      · refine ⟨1, ?_⟩
        simp [playbackStep, hp, hend]
      · push_neg at hend
        have hstep : playbackStep s =
            { s with position := s.position + s.frameInterval } := by
          simp [playbackStep, hp, not_le.mpr hend]
        have hmeas : (s.duration - (s.position + s.frameInterval)).toNat ≤ k := by
          omega
        obtain ⟨n, hn1, hn2⟩ :=
          ih { s with position := s.position + s.frameInterval } hmeas hp hF
        refine ⟨n + 1, ?_, ?_⟩
        · rw [Function.iterate_succ_apply, hstep]
          exact hn1
        · rw [Function.iterate_succ_apply, hstep]
          exact hn2

/-- C6: playback termination — a playing session with a positive frame
interval, whose every iteration commits a frame and receives no stop
signal, terminates after finitely many steps with the position clamped to
exactly the duration and playing false; the only transition that stops
playback sets the position to the duration; and a stopped session is a
fixed point of the loop step. -/
theorem playback_terminates_at_duration :
    (∀ s : PlayState, s.playing = true → 0 < s.frameInterval →
      ∃ n : Nat, (playbackStep^[n] s).playing = false ∧
        (playbackStep^[n] s).position = s.duration) ∧
    (∀ s : PlayState, s.playing = true → (playbackStep s).playing = false →
      (playbackStep s).position = s.duration) ∧
    (∀ s : PlayState, s.playing = false → playbackStep s = s) := by
  refine ⟨?_, ?_, ?_⟩
  · intro s hp hF
    exact playback_reaches_end (s.duration - s.position).toNat s le_rfl hp hF
  · intro s hp hstop
    unfold playbackStep at hstop ⊢
    simp only [hp, if_true] at hstop ⊢
    split_ifs with h
    · rfl
    · simp [h] at hstop
  · intro s hp
    simp [playbackStep, hp]

/-- Witness for C6: from position 0 with duration 2 ns and frame interval
1 ns, the loop stops by itself with the position at the duration. -/
theorem playback_terminates_at_duration_witness :
    ∃ n : Nat, (playbackStep^[n] (PlayState.mk 0 2 1 true)).playing = false ∧
      (playbackStep^[n] (PlayState.mk 0 2 1 true)).position = 2 :=
  playback_terminates_at_duration.1 (PlayState.mk 0 2 1 true) rfl (by norm_num)

/-- For a positive frame rate and nonnegative position the Go truncating
division agrees with Euclidean division. -/
theorem quantize_eq_ediv_mul (fps : ℚ) (hfps : 0 < fps) (p : Int)
    (hp : 0 ≤ p) (hfd : 0 ≤ frameDurationOf fps) :
    quantizePosition fps p =
      p / frameDurationOf fps * frameDurationOf fps := by
  simp only [quantizePosition]
  rw [if_neg (not_le.mpr hfps), Int.tdiv_eq_ediv hp hfd]

/-- A position inside the bucket `[k·fd, (k+1)·fd)` has Euclidean
quotient `k` by `fd`. -/
theorem ediv_eq_of_mem_bucket {fd p k : Int} (hfd : 0 < fd)
    (h1 : k * fd ≤ p) (h2 : p < (k + 1) * fd) : p / fd = k :=
  le_antisymm (by rw [← Int.lt_add_one_iff]; exact (Int.ediv_lt_iff_lt_mul hfd).mpr h2)
    ((Int.le_ediv_iff_mul_le hfd).mpr h1)

/-- C3 (amended): quantization snaps a position down to the greatest
frame boundary at or below it — for every frame rate `fps > 0` with
positive derived frame duration `fd`, the quantized position is the floor
multiple of `fd` (so `q ≤ p < q + fd`); two positions in the same frame
bucket produce the same cache key for `Get` and `Put`, and positions one
bucket apart produce different keys.  (It is not the nearest boundary:
see the counterexample.) -/
theorem quantize_snaps_to_bucket_floor (fps : ℚ) (hfps : 0 < fps)
    (hfd : 0 < frameDurationOf fps) :
    (∀ p : Int, 0 ≤ p →
      quantizePosition fps p =
        p / frameDurationOf fps * frameDurationOf fps ∧
      quantizePosition fps p ≤ p ∧
      p < quantizePosition fps p + frameDurationOf fps) ∧
    (∀ k p1 p2 : Int, 0 ≤ k →
      k * frameDurationOf fps ≤ p1 → p1 < (k + 1) * frameDurationOf fps →
      k * frameDurationOf fps ≤ p2 → p2 < (k + 1) * frameDurationOf fps →
      quantizePosition fps p1 = quantizePosition fps p2) ∧
    (∀ k p1 p2 : Int, 0 ≤ k →
      k * frameDurationOf fps ≤ p1 → p1 < (k + 1) * frameDurationOf fps →
      (k + 1) * frameDurationOf fps ≤ p2 → p2 < (k + 2) * frameDurationOf fps →
      quantizePosition fps p1 ≠ quantizePosition fps p2) ∧
    (∀ (c : FrameCache) (width height p1 p2 : Int) (q : QualityPreset),
      quantizePosition c.fps p1 = quantizePosition c.fps p2 ↔
        c.keyFor p1 width height q = c.keyFor p2 width height q) := by
  have hfd' : (0 : Int) ≤ frameDurationOf fps := le_of_lt hfd
  have hq : ∀ p : Int, 0 ≤ p → quantizePosition fps p =
      p / frameDurationOf fps * frameDurationOf fps :=
    fun p hp => quantize_eq_ediv_mul fps hfps p hp hfd'
  refine ⟨?_, ?_, ?_, ?_⟩
  · intro p hp
    refine ⟨hq p hp, ?_, ?_⟩ <;>
    · rw [hq p hp]
      have hdm := Int.ediv_add_emod p (frameDurationOf fps)
      have hm0 := Int.emod_nonneg p (ne_of_gt hfd)
      have hm1 := Int.emod_lt_of_pos p hfd
      rw [mul_comm]
      linarith
  · intro k p1 p2 hk h1 h2 h3 h4
    have hp1 : 0 ≤ p1 := le_trans (mul_nonneg hk hfd') h1
    have hp2 : 0 ≤ p2 := le_trans (mul_nonneg hk hfd') h3
    rw [hq p1 hp1, hq p2 hp2, ediv_eq_of_mem_bucket hfd h1 h2,
      ediv_eq_of_mem_bucket hfd h3 h4]
  · intro k p1 p2 hk h1 h2 h3 h4
    have hk1 : (0 : Int) ≤ k + 1 := by omega
    have hp1 : 0 ≤ p1 := le_trans (mul_nonneg hk hfd') h1
    have hp2 : 0 ≤ p2 := le_trans (mul_nonneg hk1 hfd') h3
    rw [hq p1 hp1, hq p2 hp2, ediv_eq_of_mem_bucket hfd h1 h2]
    have h4' : p2 < (k + 1 + 1) * frameDurationOf fps := by
      have : (k + 2 : Int) = k + 1 + 1 := by ring
      rwa [this] at h4
    rw [ediv_eq_of_mem_bucket hfd h3 h4']
    intro h
    have := mul_right_cancel₀ (ne_of_gt hfd) h
    omega
  · intro c width height p1 p2 q
    constructor
    · intro h
      simp [FrameCache.keyFor, h]
    · intro h
      have := congrArg CacheKey.position h
      simpa [FrameCache.keyFor] using this

/-- Counterexample for C3 as stated: at 1 fps (frame duration 10^9 ns)
the position 0.9 s quantizes to 0, yet the frame boundary 10^9 ns is
strictly nearer to 0.9 s — the quantized position is not the nearest
frame boundary. -/
theorem quantize_not_nearest_boundary :
    quantizePosition 1 900000000 = 0 ∧
    ((1000000000 : Int) - 900000000).natAbs <
      ((900000000 : Int) - quantizePosition 1 900000000).natAbs := by
  have h : quantizePosition 1 900000000 = 0 := by
    norm_num [quantizePosition, frameDurationOf, nsPerSecond]
    decide
  exact ⟨h, by rw [h]; norm_num⟩

/-- Witness for C3 (amended) at fps = 1: both hypotheses hold there and
the floor characterization follows at position 0.9 s. -/
theorem quantize_snaps_to_bucket_floor_witness :
    quantizePosition 1 900000000 =
      (900000000 : Int) / frameDurationOf 1 * frameDurationOf 1 ∧
    quantizePosition 1 900000000 ≤ 900000000 ∧
    (900000000 : Int) < quantizePosition 1 900000000 + frameDurationOf 1 := by
  have hfd : (0 : Int) < frameDurationOf 1 := by
    norm_num [frameDurationOf, nsPerSecond]
  exact (quantize_snaps_to_bucket_floor 1 (by norm_num) hfd).1 900000000
    (by norm_num)

/-- The 14-byte BMP header layout: magic bytes, four size bytes, eight
further header bytes. -/
def bmpHeader (b2 b3 b4 b5 : Nat) (pad : List Nat) : List Nat :=
  66 :: 77 :: b2 :: b3 :: b4 :: b5 :: pad

theorem readFull_ok (s : List Nat) (n : Nat) (h : n ≤ s.length) :
    readFull s n = .ok (s.take n, s.drop n) := by
  simp [readFull, Nat.not_lt.mpr h]

theorem readFull_err (s : List Nat) (n : Nat) (h : s.length < n) :
    readFull s n =
      .error (if s.isEmpty then .eofErr else .unexpectedEOFErr) := by
  simp [readFull, h]

theorem readFull_ok_inversion {s : List Nat} {n : Nat} {a b : List Nat}
    (h : readFull s n = .ok (a, b)) :
    a = s.take n ∧ b = s.drop n ∧ n ≤ s.length := by
  unfold readFull at h
  split at h
  · simp at h
  · rename_i hlt
    simp only [Except.ok.injEq, Prod.mk.injEq] at h
    exact ⟨h.1.symm, h.2.symm, Nat.not_lt.mp hlt⟩

/-- A well-formed header (magic `BM`, size field `14 + N`) followed by an
`N`-byte payload parses to the frame of those `N + 14` bytes, leaving the
remainder of the stream untouched. -/
theorem nextFrame_parses_wellformed (b2 b3 b4 b5 : Nat) (pad : List Nat)
    (hpad : pad.length = 8) (payload rest : List Nat)
    (hsize : leUint32 b2 b3 b4 b5 = 14 + payload.length) :
    nextFrame (bmpHeader b2 b3 b4 b5 pad ++ (payload ++ rest)) =
      .ok (bmpHeader b2 b3 b4 b5 pad ++ payload, rest) := by
  have hlen : (bmpHeader b2 b3 b4 b5 pad).length = 14 := by
    simp [bmpHeader, hpad]
  have h14 : readFull (bmpHeader b2 b3 b4 b5 pad ++ (payload ++ rest)) 14 =
      .ok (bmpHeader b2 b3 b4 b5 pad, payload ++ rest) := by
    rw [readFull_ok _ _ (by simp [hlen]), List.take_left' hlen,
      List.drop_left' hlen]
  simp only [nextFrame, h14]
  have hg0 : (bmpHeader b2 b3 b4 b5 pad).getD 0 0 = 66 := rfl
  have hg1 : (bmpHeader b2 b3 b4 b5 pad).getD 1 0 = 77 := rfl
  have hg2 : (bmpHeader b2 b3 b4 b5 pad).getD 2 0 = b2 := rfl
  have hg3 : (bmpHeader b2 b3 b4 b5 pad).getD 3 0 = b3 := rfl
  have hg4 : (bmpHeader b2 b3 b4 b5 pad).getD 4 0 = b4 := rfl
  have hg5 : (bmpHeader b2 b3 b4 b5 pad).getD 5 0 = b5 := rfl
  rw [if_pos ⟨hg0, hg1⟩, hg2, hg3, hg4, hg5, hsize]
  rw [if_neg (by omega)]
  have hsub : 14 + payload.length - 14 = payload.length := by omega
  rw [hsub, readFull_ok _ _ (by simp),
    List.take_left' (rfl : payload.length = payload.length),
    List.drop_left' (rfl : payload.length = payload.length)]

/-- A stream whose first two bytes are not the magic `B`,`M` fails with
the framing error. -/
theorem nextFrame_rejects_magic (b0 b1 b2 b3 b4 b5 : Nat) (pad : List Nat)
    (hpad : pad.length = 8) (rest : List Nat)
    (hmagic : ¬(b0 = 66 ∧ b1 = 77)) :
    nextFrame ((b0 :: b1 :: b2 :: b3 :: b4 :: b5 :: pad) ++ rest) =
      .error .invalidHeader := by
  have hlen : (b0 :: b1 :: b2 :: b3 :: b4 :: b5 :: pad).length = 14 := by
    simp [hpad]
  have h14 : readFull ((b0 :: b1 :: b2 :: b3 :: b4 :: b5 :: pad) ++ rest) 14 =
      .ok (b0 :: b1 :: b2 :: b3 :: b4 :: b5 :: pad, rest) := by
    rw [readFull_ok _ _ (by simp only [List.length_append, hlen]; omega),
      List.take_left' hlen, List.drop_left' hlen]
  simp only [nextFrame, h14]
  have hg0 : (b0 :: b1 :: b2 :: b3 :: b4 :: b5 :: pad).getD 0 0 = b0 := rfl
  have hg1 : (b0 :: b1 :: b2 :: b3 :: b4 :: b5 :: pad).getD 1 0 = b1 := rfl
  rw [if_neg (by rw [hg0, hg1]; exact hmagic)]

/-- A declared frame size below the 14-byte header size fails with the
size validation error. -/
theorem nextFrame_rejects_small_size (b2 b3 b4 b5 : Nat) (pad : List Nat)
    (hpad : pad.length = 8) (rest : List Nat)
    (hsize : leUint32 b2 b3 b4 b5 < 14) :
    nextFrame (bmpHeader b2 b3 b4 b5 pad ++ rest) = .error .invalidSize := by
  have hlen : (bmpHeader b2 b3 b4 b5 pad).length = 14 := by
    simp [bmpHeader, hpad]
  have h14 : readFull (bmpHeader b2 b3 b4 b5 pad ++ rest) 14 =
      .ok (bmpHeader b2 b3 b4 b5 pad, rest) := by
    rw [readFull_ok _ _ (by simp [hlen]), List.take_left' hlen,
      List.drop_left' hlen]
  simp only [nextFrame, h14]
  have hg0 : (bmpHeader b2 b3 b4 b5 pad).getD 0 0 = 66 := rfl
  have hg1 : (bmpHeader b2 b3 b4 b5 pad).getD 1 0 = 77 := rfl
  have hg2 : (bmpHeader b2 b3 b4 b5 pad).getD 2 0 = b2 := rfl
  have hg3 : (bmpHeader b2 b3 b4 b5 pad).getD 3 0 = b3 := rfl
  have hg4 : (bmpHeader b2 b3 b4 b5 pad).getD 4 0 = b4 := rfl
  have hg5 : (bmpHeader b2 b3 b4 b5 pad).getD 5 0 = b5 := rfl
  rw [if_pos ⟨hg0, hg1⟩, hg2, hg3, hg4, hg5, if_pos hsize]

/-- A stream too short for even the header surfaces a read error, not a
frame. -/
theorem nextFrame_short_header (s : List Nat) (h : s.length < 14) :
    nextFrame s =
      .error (if s.isEmpty then .eofErr else .unexpectedEOFErr) := by
  simp only [nextFrame, readFull_err s 14 h]

/-- A well-formed header whose payload is cut short surfaces a read
error, never a partial frame. -/
theorem nextFrame_short_payload (b2 b3 b4 b5 : Nat) (pad : List Nat)
    (hpad : pad.length = 8) (rest : List Nat)
    (hge : 14 ≤ leUint32 b2 b3 b4 b5)
    (hshort : rest.length < leUint32 b2 b3 b4 b5 - 14) :
    nextFrame (bmpHeader b2 b3 b4 b5 pad ++ rest) =
      .error (if rest.isEmpty then .eofErr else .unexpectedEOFErr) := by
  have hlen : (bmpHeader b2 b3 b4 b5 pad).length = 14 := by
    simp [bmpHeader, hpad]
  have h14 : readFull (bmpHeader b2 b3 b4 b5 pad ++ rest) 14 =
      .ok (bmpHeader b2 b3 b4 b5 pad, rest) := by
    rw [readFull_ok _ _ (by simp [hlen]), List.take_left' hlen,
      List.drop_left' hlen]
  simp only [nextFrame, h14]
  have hg0 : (bmpHeader b2 b3 b4 b5 pad).getD 0 0 = 66 := rfl
  have hg1 : (bmpHeader b2 b3 b4 b5 pad).getD 1 0 = 77 := rfl
  have hg2 : (bmpHeader b2 b3 b4 b5 pad).getD 2 0 = b2 := rfl
  have hg3 : (bmpHeader b2 b3 b4 b5 pad).getD 3 0 = b3 := rfl
  have hg4 : (bmpHeader b2 b3 b4 b5 pad).getD 4 0 = b4 := rfl
  have hg5 : (bmpHeader b2 b3 b4 b5 pad).getD 5 0 = b5 := rfl
  rw [if_pos ⟨hg0, hg1⟩, hg2, hg3, hg4, hg5, if_neg (by omega),
    readFull_err rest _ hshort]

/-- Whenever `NextFrame` succeeds, the returned frame is a complete frame
of exactly the declared size (at least 14), and the stream splits exactly
into that frame followed by the unconsumed remainder — a short read can
never yield a partial frame. -/
theorem nextFrame_ok_inversion (s frame rest : List Nat)
    (h : nextFrame s = .ok (frame, rest)) :
    s = frame ++ rest ∧ 14 ≤ frame.length ∧
    frame.length = leUint32 (frame.getD 2 0) (frame.getD 3 0)
      (frame.getD 4 0) (frame.getD 5 0) := by
  unfold nextFrame at h
  cases hr : readFull s 14 with
  | error e => rw [hr] at h; simp at h
  | ok hp =>
    obtain ⟨header, rest1⟩ := hp
    rw [hr] at h
    obtain ⟨hh, hr1, hs14⟩ := readFull_ok_inversion hr
    simp only [] at h
    split at h
    · rename_i hmagic
      set fs := leUint32 (header.getD 2 0) (header.getD 3 0)
        (header.getD 4 0) (header.getD 5 0) with hfs
      split at h
      · simp at h
      · rename_i hfs14
        push_neg at hfs14
        cases hr2 : readFull rest1 (fs - 14) with
        | error e => rw [hr2] at h; simp at h
        | ok pq =>
          obtain ⟨payload, rest2⟩ := pq
          rw [hr2] at h
          simp only [Except.ok.injEq, Prod.mk.injEq] at h
          obtain ⟨hframe, hrest⟩ := h
          obtain ⟨hp', hr2', hlen2⟩ := readFull_ok_inversion hr2
          have hhlen : header.length = 14 := by
            rw [hh, List.length_take]
            omega
          have hplen : payload.length = fs - 14 := by
            rw [hp', List.length_take]
            omega
          have hflen : frame.length = fs := by
            rw [← hframe, List.length_append, hhlen, hplen]
            omega
          refine ⟨?_, ?_, ?_⟩
          · rw [← hframe, ← hrest, hp', hr2', List.append_assoc,
              List.take_append_drop, hr1, hh, List.take_append_drop]
          · omega
          · have hmem : ∀ i, i < 14 → frame.getD i 0 = header.getD i 0 := by
              intro i hi
              rw [← hframe]
              exact List.getD_append header payload 0 i (by omega)
            rw [hflen, hfs, hmem 2 (by omega), hmem 3 (by omega),
              hmem 4 (by omega), hmem 5 (by omega)]
    · simp at h

/-- C4: the decode-pipe framing — a stream starting with magic `B`,`M`
and little-endian size field `14 + N` followed by `N` payload bytes
parses to exactly those `N + 14` bytes with the header in front; a wrong
magic fails with the framing error; a declared size below 14 (such as 5)
fails the size validation; a stream short of the header or of the
declared payload surfaces an end-of-stream or unexpected-EOF error; and a
successful parse always consumes and returns exactly the declared frame
size, never a partial frame. -/
theorem frame_protocol_parsing :
    (∀ (b2 b3 b4 b5 : Nat) (pad : List Nat), pad.length = 8 →
      ∀ (payload rest : List Nat), leUint32 b2 b3 b4 b5 = 14 + payload.length →
      nextFrame (bmpHeader b2 b3 b4 b5 pad ++ (payload ++ rest)) =
        .ok (bmpHeader b2 b3 b4 b5 pad ++ payload, rest) ∧
      (bmpHeader b2 b3 b4 b5 pad ++ payload).length = payload.length + 14 ∧
      (bmpHeader b2 b3 b4 b5 pad ++ payload).take 14 = bmpHeader b2 b3 b4 b5 pad) ∧
    (∀ (b0 b1 b2 b3 b4 b5 : Nat) (pad : List Nat), pad.length = 8 →
      ∀ rest : List Nat, ¬(b0 = 66 ∧ b1 = 77) →
      nextFrame ((b0 :: b1 :: b2 :: b3 :: b4 :: b5 :: pad) ++ rest) =
        .error .invalidHeader) ∧
    (∀ (b2 b3 b4 b5 : Nat) (pad : List Nat), pad.length = 8 →
      ∀ rest : List Nat, leUint32 b2 b3 b4 b5 < 14 →
      nextFrame (bmpHeader b2 b3 b4 b5 pad ++ rest) = .error .invalidSize) ∧
    (∀ s : List Nat, s.length < 14 →
      ∃ e, nextFrame s = .error e ∧ (e = .eofErr ∨ e = .unexpectedEOFErr)) ∧
    (∀ (b2 b3 b4 b5 : Nat) (pad : List Nat), pad.length = 8 →
      ∀ rest : List Nat, 14 ≤ leUint32 b2 b3 b4 b5 →
      rest.length < leUint32 b2 b3 b4 b5 - 14 →
      ∃ e, nextFrame (bmpHeader b2 b3 b4 b5 pad ++ rest) = .error e ∧
        (e = .eofErr ∨ e = .unexpectedEOFErr)) ∧
    (∀ s frame rest : List Nat, nextFrame s = .ok (frame, rest) →
      s = frame ++ rest ∧ 14 ≤ frame.length ∧
      frame.length = leUint32 (frame.getD 2 0) (frame.getD 3 0)
        (frame.getD 4 0) (frame.getD 5 0)) := by
  refine ⟨?_, ?_, ?_, ?_, ?_, nextFrame_ok_inversion⟩
  · intro b2 b3 b4 b5 pad hpad payload rest hsize
    have hlen : (bmpHeader b2 b3 b4 b5 pad).length = 14 := by
      simp [bmpHeader, hpad]
    refine ⟨nextFrame_parses_wellformed b2 b3 b4 b5 pad hpad payload rest hsize,
      ?_, List.take_left' hlen⟩
    rw [List.length_append, hlen]
    omega
  · intro b0 b1 b2 b3 b4 b5 pad hpad rest hmagic
    exact nextFrame_rejects_magic b0 b1 b2 b3 b4 b5 pad hpad rest hmagic
  · intro b2 b3 b4 b5 pad hpad rest hsize
    exact nextFrame_rejects_small_size b2 b3 b4 b5 pad hpad rest hsize
  · intro s hs
    exact ⟨_, nextFrame_short_header s hs, by split_ifs <;> simp⟩
  · intro b2 b3 b4 b5 pad hpad rest hge hshort
    exact ⟨_, nextFrame_short_payload b2 b3 b4 b5 pad hpad rest hge hshort,
      by split_ifs <;> simp⟩

/-- Witness for C4: a concrete two-byte-payload stream (size field 16)
parses to the 16-byte frame, and the size-5 stream fails validation. -/
theorem frame_protocol_parsing_witness :
    nextFrame (bmpHeader 16 0 0 0 [9, 9, 9, 9, 9, 9, 9, 9] ++ ([1, 2] ++ [])) =
      .ok (bmpHeader 16 0 0 0 [9, 9, 9, 9, 9, 9, 9, 9] ++ [1, 2], []) ∧
    nextFrame (bmpHeader 5 0 0 0 [9, 9, 9, 9, 9, 9, 9, 9] ++ []) =
      .error .invalidSize := by
  constructor
  · exact (frame_protocol_parsing.1 16 0 0 0 [9, 9, 9, 9, 9, 9, 9, 9] rfl
      [1, 2] [] (by norm_num [leUint32])).1
  · exact frame_protocol_parsing.2.2.1 5 0 0 0 [9, 9, 9, 9, 9, 9, 9, 9] rfl
      [] (by norm_num [leUint32])

theorem FrameCache.put_fields (c : FrameCache) (p w h : Int)
    (q : QualityPreset) (f : String) :
    (c.put p w h q f).capacity = c.capacity ∧ (c.put p w h q f).fps = c.fps := by
  simp only [FrameCache.put]
  split_ifs <;> exact ⟨rfl, rfl⟩

theorem FrameCache.get_fields (c : FrameCache) (p w h : Int)
    (q : QualityPreset) :
    ((c.get p w h q).2).capacity = c.capacity ∧
    ((c.get p w h q).2).fps = c.fps := by
  simp only [FrameCache.get]
  rcases hf : c.order.find? (fun e => decide (e.1 = c.keyFor p w h q)) with _ | e <;>
    simp [hf]

theorem FrameCache.length_get (c : FrameCache) (p w h : Int)
    (q : QualityPreset) :
    ((c.get p w h q).2).order.length = c.order.length := by
  simp only [FrameCache.get]
  cases hf : c.order.find? (fun e => decide (e.1 = c.keyFor p w h q)) with
  | none => rfl
  | some e =>
      have hmem := List.mem_of_find?_eq_some hf
      have herase := @List.length_eraseP_of_mem _ c.order e
        (fun x => decide (x.1 = c.keyFor p w h q)) hmem
        (by simpa using List.find?_some hf)
      have h1 : 0 < c.order.length := List.length_pos_of_mem hmem
      simp only [List.length_cons, herase]
      omega

theorem FrameCache.length_put_le (c : FrameCache) (p w h : Int)
    (q : QualityPreset) (f : String) (hcap : 0 < c.capacity)
    (hlen : c.order.length ≤ c.capacity) :
    (c.put p w h q f).order.length ≤ c.capacity := by
  simp only [FrameCache.put]
  by_cases hmem : c.order.any (fun e => decide (e.1 = c.keyFor p w h q)) = true
  · rw [if_pos hmem]
    obtain ⟨e, he, hpe⟩ := List.any_eq_true.mp hmem
    have herase := @List.length_eraseP_of_mem _ c.order e
      (fun x => decide (x.1 = c.keyFor p w h q)) he (by simpa using hpe)
    have h1 : 0 < c.order.length := List.length_pos_of_mem he
    simp only [List.length_cons, herase]
    omega
  · rw [if_neg hmem]
    by_cases hfull : c.order.length ≥ c.capacity
    · simp only [if_pos hfull, List.length_cons, List.length_dropLast]
      omega
    · simp only [if_neg hfull, List.length_cons]
      omega

theorem FrameCache.length_applyOp_le (c : FrameCache) (op : CacheOp)
    (hcap : 0 < c.capacity) (hlen : c.order.length ≤ c.capacity) :
    (c.applyOp op).order.length ≤ c.capacity := by
  cases op with
  | put p w h q f => exact FrameCache.length_put_le c p w h q f hcap hlen
  | get p w h q => rw [FrameCache.applyOp, FrameCache.length_get]; exact hlen

theorem FrameCache.capacity_applyOp (c : FrameCache) (op : CacheOp) :
    (c.applyOp op).capacity = c.capacity := by
  cases op with
  | put p w h q f => exact (FrameCache.put_fields c p w h q f).1
  | get p w h q => exact (FrameCache.get_fields c p w h q).1

theorem FrameCache.length_applyOps_le (ops : List CacheOp) (c : FrameCache)
    (hcap : 0 < c.capacity) (hlen : c.order.length ≤ c.capacity) :
    (c.applyOps ops).order.length ≤ c.capacity := by
  induction ops generalizing c with
  | nil => exact hlen
  | cons op rest ih =>
      have hcap' : 0 < (c.applyOp op).capacity := by
        rw [FrameCache.capacity_applyOp]; exact hcap
      have hlen' : (c.applyOp op).order.length ≤ (c.applyOp op).capacity := by
        rw [FrameCache.capacity_applyOp]
        exact FrameCache.length_applyOp_le c op hcap hlen
      have := ih (c.applyOp op) hcap' hlen'
      rw [FrameCache.capacity_applyOp] at this
      exact this

/-- C2: the frame cache is a correct bounded LRU — from an empty cache of
capacity `C > 0` every sequence of `Put`/`Get` operations keeps the entry
count at most `C`; a `Put` of a fresh key into a full cache produces
exactly the new entry in front of the old order with its last
(least-recently-used) entry dropped; a `Get` hit and a `Put` overwrite
promote the entry to the front without changing the entry count; and
concretely, with capacity 2, inserting A and B, touching A and inserting
C leaves A and C present and B absent. -/
theorem frame_cache_lru_correct :
    (∀ (cap : Int) (fps : ℚ) (ops : List CacheOp), 0 < cap →
      ((FrameCache.new cap fps).applyOps ops).order.length ≤ cap.toNat) ∧
    (∀ (c : FrameCache) (p w h : Int) (q : QualityPreset) (f : String),
      c.order.any (fun e => decide (e.1 = c.keyFor p w h q)) = false →
      c.order.length = c.capacity →
      (c.put p w h q f).order = (c.keyFor p w h q, f) :: c.order.dropLast) ∧
    (∀ (c : FrameCache) (p w h : Int) (q : QualityPreset) (f : String),
      (c.get p w h q).1 = some f →
      ((c.get p w h q).2).order.length = c.order.length ∧
      ((c.get p w h q).2).order.head? = some (c.keyFor p w h q, f)) ∧
    (∀ (c : FrameCache) (p w h : Int) (q : QualityPreset) (f : String),
      c.order.any (fun e => decide (e.1 = c.keyFor p w h q)) = true →
      (c.put p w h q f).order.length = c.order.length ∧
      (c.put p w h q f).order.head? = some (c.keyFor p w h q, f)) ∧
    ((((FrameCache.new 2 0).applyOps
        [CacheOp.put 0 1 1 QualityPreset.low "fa",
         CacheOp.put 1 1 1 QualityPreset.low "fb",
         CacheOp.get 0 1 1 QualityPreset.low,
         CacheOp.put 2 1 1 QualityPreset.low "fc"]).get
          0 1 1 QualityPreset.low).1 = some "fa" ∧
     (((FrameCache.new 2 0).applyOps
        [CacheOp.put 0 1 1 QualityPreset.low "fa",
         CacheOp.put 1 1 1 QualityPreset.low "fb",
         CacheOp.get 0 1 1 QualityPreset.low,
         CacheOp.put 2 1 1 QualityPreset.low "fc"]).get
          2 1 1 QualityPreset.low).1 = some "fc" ∧
     (((FrameCache.new 2 0).applyOps
        [CacheOp.put 0 1 1 QualityPreset.low "fa",
         CacheOp.put 1 1 1 QualityPreset.low "fb",
         CacheOp.get 0 1 1 QualityPreset.low,
         CacheOp.put 2 1 1 QualityPreset.low "fc"]).get
          1 1 1 QualityPreset.low).1 = none ∧
     ((FrameCache.new 2 0).applyOps
        [CacheOp.put 0 1 1 QualityPreset.low "fa",
         CacheOp.put 1 1 1 QualityPreset.low "fb",
         CacheOp.get 0 1 1 QualityPreset.low,
         CacheOp.put 2 1 1 QualityPreset.low "fc"]).len = 2) := by
  refine ⟨?_, ?_, ?_, ?_, by decide, by decide, by decide, by decide⟩
  · intro cap fps ops hcap
    have hc : (FrameCache.new cap fps).capacity = cap.toNat := by
      simp [FrameCache.new, not_le.mpr hcap]
    have hcap' : 0 < (FrameCache.new cap fps).capacity := by
      rw [hc]; omega
    have := FrameCache.length_applyOps_le ops (FrameCache.new cap fps) hcap'
      (by simp [FrameCache.new])
    rwa [hc] at this
  · intro c p w h q f hmem hfull
    unfold FrameCache.put
    rw [if_neg (by rw [hmem]; exact Bool.false_ne_true),
      if_pos (le_of_eq hfull.symm)]
  · intro c p w h q f hhit
    simp only [FrameCache.get] at hhit ⊢
    cases hf : c.order.find? (fun e => decide (e.1 = c.keyFor p w h q)) with
    | none => rw [hf] at hhit; simp at hhit
    | some e =>
        rw [hf] at hhit
        simp only [Option.some.injEq] at hhit
        have hmem := List.mem_of_find?_eq_some hf
        have herase := @List.length_eraseP_of_mem _ c.order e
          (fun x => decide (x.1 = c.keyFor p w h q)) hmem
          (by simpa using List.find?_some hf)
        have h1 : 0 < c.order.length := List.length_pos_of_mem hmem
        constructor
        · simp only [List.length_cons, herase]
          omega
        · simp [hhit]
  · intro c p w h q f hmem
    simp only [FrameCache.put]
    rw [if_pos hmem]
    obtain ⟨e, he, hpe⟩ := List.any_eq_true.mp hmem
    have herase := @List.length_eraseP_of_mem _ c.order e
      (fun x => decide (x.1 = c.keyFor p w h q)) he (by simpa using hpe)
    have h1 : 0 < c.order.length := List.length_pos_of_mem he
    constructor
    · simp only [List.length_cons, herase]
      omega
    · rfl

/-- Witness for C2: the capacity bound instantiated on the concrete
four-operation run with capacity 2. -/
theorem frame_cache_lru_correct_witness :
    ((FrameCache.new 2 0).applyOps
      [CacheOp.put 0 1 1 QualityPreset.low "fa",
       CacheOp.put 1 1 1 QualityPreset.low "fb",
       CacheOp.get 0 1 1 QualityPreset.low,
       CacheOp.put 2 1 1 QualityPreset.low "fc"]).order.length ≤ (2 : Int).toNat :=
  frame_cache_lru_correct.1 2 0
    [CacheOp.put 0 1 1 QualityPreset.low "fa",
     CacheOp.put 1 1 1 QualityPreset.low "fb",
     CacheOp.get 0 1 1 QualityPreset.low,
     CacheOp.put 2 1 1 QualityPreset.low "fc"] (by norm_num)

end LazyCut
